import Mathlib

/-!
Shallow embedding of `src/desktop/tauri/src-tauri/src/launcher.rs`
(Suwayomi-Tauri desktop launcher).

Strings are modelled as Lean `String` / `List Char`; filesystem paths as
`List String` (components); the effects of the launcher (filesystem existence
checks, health probes, process spawning) are supplied as oracle parameters so
that the pure control flow of the Rust source can be stated and proved.
-/

deriving instance DecidableEq for Except

namespace Launcher

/-! ## Character and string utilities (models of Rust `str` methods) -/

/-- ASCII whitespace, as matched by Rust `str::trim` and regex `\s` on the
configuration inputs in scope. -/
def isWsChar (c : Char) : Bool :=
  c = ' ' || c = '\t' || c = '\n' || c = '\r' || c = '\x0b' || c = '\x0c'

/-- Model of Rust `str::trim`: drop whitespace from both ends. -/
def trimChars (l : List Char) : List Char :=
  ((l.dropWhile isWsChar).reverse.dropWhile isWsChar).reverse

/-- Model of Rust `trim_end_matches('/')`: drop every trailing `'/'`. -/
def dropTrailingSlashes (l : List Char) : List Char :=
  (l.reverse.dropWhile (fun c => c = '/')).reverse

/-- Split a character list into lines at `'\n'` (accumulator in reverse). -/
def splitLinesAux (acc : List Char) : List Char → List (List Char)
  | [] => [acc.reverse]
  | c :: cs =>
    if c = '\n' then acc.reverse :: splitLinesAux [] cs
    else splitLinesAux (c :: acc) cs

/-- Split a character list into lines at `'\n'`. -/
def splitLines (l : List Char) : List (List Char) :=
  splitLinesAux [] l

/-- Strip a literal leading sequence, returning the remainder on success. -/
def stripLit : List Char → List Char → Option (List Char)
  | [], l => some l
  | _ :: _, [] => none
  | p :: ps, c :: cs => if c = p then stripLit ps cs else none

/-- Decimal digits of a natural number (fuel-based helper). -/
def natDigitsAux : Nat → Nat → List Char
  | 0, _ => []
  | fuel + 1, n =>
    if n < 10 then [Char.ofNat (48 + n)]
    else natDigitsAux fuel (n / 10) ++ [Char.ofNat (48 + n % 10)]

/-- Decimal representation of a natural number, as characters. -/
def natDigits (n : Nat) : List Char :=
  natDigitsAux (n + 1) n

/-- Numeric value of a run of decimal digit characters. -/
def digitsToNat (l : List Char) : Nat :=
  l.foldl (fun a c => a * 10 + (c.toNat - 48)) 0

end Launcher

namespace Launcher

/-! ## ConfigResolver constants and `ParsedConfig` (launcher.rs lines 12-55) -/

def DEFAULT_IP : String := "127.0.0.1"

def DEFAULT_PORT : Nat := 4567

structure ParsedConfig where
  ip : String
  port : Nat
  subpath : String
deriving DecidableEq, Repr

/-- Rust `impl Default for ParsedConfig` (launcher.rs lines 47-55). -/
def ParsedConfig.default : ParsedConfig :=
  { ip := DEFAULT_IP, port := DEFAULT_PORT, subpath := "" }

/-- Model of `normalize_ip` (launcher.rs lines 322-328). -/
def normalize_ip (ip : String) : String :=
  if ip = "0.0.0.0" then DEFAULT_IP else ip

/-- Model of `normalize_subpath` (launcher.rs lines 330-341): empty or `"/"` become
empty; otherwise trim whitespace, strip trailing slashes
(`trim_end_matches('/')`), and prepend `'/'` when absent. -/
def normalize_subpath (subpath : String) : String :=
  if subpath = "" ∨ subpath = "/" then ""
  else
    let path := dropTrailingSlashes (trimChars subpath.data)
    if path.head? = some '/' then String.mk path else String.mk ('/' :: path)

/-- Model of `build_base_url` (launcher.rs lines 343-345):
`format!("http://{}:{}{}", normalize_ip(ip), port, normalize_subpath(subpath))`. -/
def build_base_url (ip : String) (port : Nat) (subpath : String) : String :=
  "http://" ++ normalize_ip ip ++ ":" ++ String.mk (natDigits port)
    ++ normalize_subpath subpath

/-! ## Model of the `url` crate, as used by `normalize_base_url`

`url::Url::parse` is a full WHATWG parser; the launcher only ever feeds it
plain `http`/`https` base addresses, so the model covers that fragment:
`scheme://host[:port][/path]` with a lowercase special scheme, a non-empty
host of ordinary host characters, an optional decimal port fitting in 16
bits (elided again on serialization when it is the scheme default), and a
path of ordinary path characters without `.`/`..` segments.  Serialization
of an absent path yields `/`, exactly as the crate does for special
schemes.  Inputs outside this fragment are rejected (parse returns
`none`), matching the "fall through on unparseable input" behaviour the
launcher relies on. -/

def isHostChar (c : Char) : Bool :=
  c.isAlphanum || c = '.' || c = '-'

def isPathChar (c : Char) : Bool :=
  c.isAlphanum || c = '/' || c = '-' || c = '_' || c = '.' || c = '~'

/-- Split a character list at every `'/'` (path segments). -/
def splitSegsAux (acc : List Char) : List Char → List (List Char)
  | [] => [acc.reverse]
  | c :: cs =>
    if c = '/' then acc.reverse :: splitSegsAux [] cs
    else splitSegsAux (c :: acc) cs

def splitSegs (l : List Char) : List (List Char) :=
  splitSegsAux [] l

/-- A path containing a `.` or `..` segment (which the real parser would
rewrite) is outside the modelled fragment. -/
def hasDotSeg (path : List Char) : Bool :=
  (splitSegs path).any (fun s => s = ['.'] || s = ['.', '.'])

structure ModelUrl where
  scheme : List Char
  host : List Char
  port : Option Nat
  path : List Char
deriving DecidableEq, Repr

/-- Default port of a special scheme (elided on serialization). -/
def defaultPortOf (scheme : List Char) : Option Nat :=
  if scheme = "http".data then some 80
  else if scheme = "https".data then some 443
  else none

/-- Parse the port section of an authority (empty, or `':'` and digits). -/
def parseAuthorityPort (l : List Char) : Option (Option Nat) :=
  match l with
  | [] => some none
  | ':' :: ds =>
    if ds = [] then some none
    else if ds.all Char.isDigit then
      let n := digitsToNat ds
      if n ≤ 65535 then some (some n) else none
    else none
  | _ => none

/-- Model of `url::Url::parse` on the launcher's fragment (see above). -/
def parseUrl (s : List Char) : Option ModelUrl :=
  let scheme := s.takeWhile (fun c => c.isAlpha && c.isLower)
  if scheme = "http".data || scheme = "https".data then
    match s.drop scheme.length with
    | ':' :: '/' :: '/' :: rest =>
      let authority := rest.takeWhile (fun c => c ≠ '/')
      let pathPart := rest.drop authority.length
      let host := authority.takeWhile (fun c => c ≠ ':')
      if host = [] then none
      else if !host.all isHostChar then none
      else
        match parseAuthorityPort (authority.drop host.length) with
        | none => none
        | some rawPort =>
          let path := if pathPart = [] then ['/'] else pathPart
          if !path.all isPathChar then none
          else if hasDotSeg path then none
          else
            let port :=
              match rawPort, defaultPortOf scheme with
              | some p, some d => if p = d then none else some p
              | p, _ => p
            some { scheme := scheme, host := host, port := port, path := path }
    | _ => none
  else none

/-- Serialization (`Url::to_string`) of a modelled URL. -/
def ModelUrl.toChars (u : ModelUrl) : List Char :=
  u.scheme ++ (':' :: '/' :: '/' :: [])
    ++ u.host
    ++ (match u.port with
        | none => []
        | some p => ':' :: natDigits p)
    ++ u.path

/-- Model of `Url::set_host` (always succeeds on the modelled fragment). -/
def set_host (u : ModelUrl) (h : List Char) : ModelUrl :=
  { u with host := h }

/-- Model of `normalize_base_url` (launcher.rs lines 347-356): parse, rewrite an
all-zeros host to loopback, serialize and strip trailing slashes. -/
def normalize_base_url (url : String) : Option String :=
  match parseUrl url.data with
  | none => none
  | some parsed =>
    let parsed :=
      if parsed.host = "0.0.0.0".data then set_host parsed "127.0.0.1".data
      else parsed
    some (String.mk (dropTrailingSlashes parsed.toChars))

/-! ## `parse_server_conf` (launcher.rs lines 294-320)

The three regexes `(?m)^\s*server\.ip\s*=\s*"([^"]+)"`,
`(?m)^\s*server\.port\s*=\s*(\d+)` and
`(?m)^\s*server\.webUISubpath\s*=\s*"([^"]*)"` are line-anchored, and
`Regex::captures` yields the first match in the text; this is modelled as a
per-line matcher applied to the first line it succeeds on. -/

/-- Match `\s*=\s*` then a quoted value `"([^"]*)"`; the ip pattern demands
a non-empty value (`[^"]+`). -/
def matchQuotedValue (nonEmptyValue : Bool) (l : List Char) : Option (List Char) :=
  match stripLit ['='] (l.dropWhile isWsChar) with
  | none => none
  | some r =>
    match stripLit ['\"'] (r.dropWhile isWsChar) with
    | none => none
    | some r2 =>
      let value := r2.takeWhile (fun c => c ≠ '\"')
      match r2.drop value.length with
      | '\"' :: _ => if nonEmptyValue && value = [] then none else some value
      | _ => none

/-- One line against `^\s*server\.ip\s*=\s*"([^"]+)"`. -/
def matchIpLine (l : List Char) : Option (List Char) :=
  match stripLit "server.ip".data (l.dropWhile isWsChar) with
  | none => none
  | some r => matchQuotedValue true r

/-- One line against `^\s*server\.webUISubpath\s*=\s*"([^"]*)"`. -/
def matchSubpathLine (l : List Char) : Option (List Char) :=
  match stripLit "server.webUISubpath".data (l.dropWhile isWsChar) with
  | none => none
  | some r => matchQuotedValue false r

/-- One line against `^\s*server\.port\s*=\s*(\d+)`. -/
def matchPortLine (l : List Char) : Option (List Char) :=
  match stripLit "server.port".data (l.dropWhile isWsChar) with
  | none => none
  | some r =>
    match stripLit ['='] (r.dropWhile isWsChar) with
    | none => none
    | some r2 =>
      let ds := (r2.dropWhile isWsChar).takeWhile Char.isDigit
      if ds = [] then none else some ds

/-- First line on which the matcher succeeds (the regex's first capture). -/
def firstMatch (f : List Char → Option (List Char)) : List (List Char) → Option (List Char)
  | [] => none
  | l :: ls =>
    match f l with
    | some v => some v
    | none => firstMatch f ls

/-- Rust `str::parse::<u16>` on a run of decimal digits. -/
def parseU16 (ds : List Char) : Option Nat :=
  if digitsToNat ds ≤ 65535 then some (digitsToNat ds) else none

/-- Body of `parse_server_conf`, over the list of lines of the text. -/
def parseLines (lines : List (List Char)) : ParsedConfig :=
  let c0 := ParsedConfig.default
  let c1 :=
    match firstMatch matchIpLine lines with
    | some v => { c0 with ip := normalize_ip (String.mk (trimChars v)) }
    | none => c0
  let c2 :=
    match firstMatch matchPortLine lines with
    | some ds =>
      match parseU16 ds with
      | some p => { c1 with port := p }
      | none => c1
    | none => c1
  match firstMatch matchSubpathLine lines with
  | some v => { c2 with subpath := normalize_subpath (String.mk (trimChars v)) }
  | none => c2

/-- Model of `parse_server_conf` (launcher.rs lines 294-320). -/
def parse_server_conf (content : String) : ParsedConfig :=
  parseLines (splitLines content.data)

/-! ## `resolve_base_url` (launcher.rs lines 258-277)

The ambient inputs (first CLI argument, `SUWAYOMI_BASE_URL`, and the
configuration file's text when readable — `load_server_conf` returns `None`
when the file is absent or unreadable) are passed explicitly. -/

/-- Model of `resolve_base_url` (launcher.rs lines 258-273). -/
def resolve_base_url (cliArg envVar confText : Option String) : String :=
  match cliArg.bind normalize_base_url with
  | some base_url => base_url
  | none =>
    match envVar.bind normalize_base_url with
    | some base_url => base_url
    | none =>
      let parsed := (confText.map parse_server_conf).getD ParsedConfig.default
      build_base_url parsed.ip parsed.port parsed.subpath

/-- Model of `fallback_base_url` (launcher.rs lines 275-277). -/
def fallback_base_url (cliArg envVar confText : Option String) : String :=
  resolve_base_url cliArg envVar confText

/-! ## RuntimePathLocator (launcher.rs lines 131-243)

Filesystem paths are modelled as lists of components; `Path::join` appends a
component.  Existence checks go through an oracle `fs : Path → Bool`. -/

/-- A filesystem path, as its list of components. -/
abbrev FsPath : Type := List String

/-- Rust `Path::join` with a single component. -/
def pjoin (p : FsPath) (s : String) : FsPath :=
  p ++ [s]

/-- Model of `push_unique_path` (launcher.rs lines 151-155). -/
def push_unique_path (paths : List FsPath) (path : FsPath) : List FsPath :=
  if path ∈ paths then paths else paths ++ [path]

/-- Model of `runtime_roots` (launcher.rs lines 131-149); the `macos` flag selects the
`cfg(target_os = "macos")` block. -/
def runtime_roots (macos : Bool) (resource_dir : Option FsPath) (app_dir : FsPath) :
    List FsPath :=
  let roots : List FsPath := []
  let roots :=
    match resource_dir with
    | some rd => push_unique_path (push_unique_path roots rd) (pjoin rd "resources")
    | none => roots
  let roots := push_unique_path roots app_dir
  let roots := push_unique_path roots (pjoin app_dir "resources")
  if macos then
    push_unique_path
      (push_unique_path roots (pjoin app_dir "Resources"))
      (pjoin (pjoin app_dir "Resources") "resources")
  else roots

/-- Model of `java_binary_path` (launcher.rs lines 174-184), non-Windows variant
(`jre/bin/java`; Windows appends `.exe` to the same location). -/
def java_binary_path (app_dir : FsPath) : FsPath :=
  pjoin (pjoin (pjoin app_dir "jre") "bin") "java"

/-- The payload path `bin/Suwayomi-Server.jar` under a root
(launcher.rs line 215). -/
def jar_file_path (root : FsPath) : FsPath :=
  pjoin (pjoin root "bin") "Suwayomi-Server.jar"

/-- The launcher's error type (launcher.rs lines 21-33); `MissingFile` carries
the displayed path, modelled as the path itself. -/
inductive LauncherError where
  | MissingExecutable
  | MissingFile (path : FsPath)
  | SpawnServer (reason : String)
  | StartupTimeout (base_url : String) (timeout_secs : Nat)
  | InvalidBaseUrl (value : String)
deriving DecidableEq, Repr

/-- Loop of `find_runtime_paths` (launcher.rs lines 213-242), with the two
first-miss accumulators explicit. -/
def find_runtime_paths_loop (fs : FsPath → Bool) :
    List FsPath → Option FsPath → Option FsPath →
    Except LauncherError (FsPath × FsPath × FsPath)
  | [], firstMissingJava, firstMissingJar =>
    match firstMissingJava with
    | some javaPath => .error (.MissingFile javaPath)
    | none =>
      match firstMissingJar with
      | some jarPath => .error (.MissingFile jarPath)
      | none => .error .MissingExecutable
  | root :: rest, firstMissingJava, firstMissingJar =>
    let java_bin := java_binary_path root
    let jar_file := jar_file_path root
    if !fs java_bin then
      find_runtime_paths_loop fs rest
        (if firstMissingJava.isNone then some java_bin else firstMissingJava)
        firstMissingJar
    else if !fs jar_file then
      find_runtime_paths_loop fs rest firstMissingJava
        (if firstMissingJar.isNone then some jar_file else firstMissingJar)
    else .ok (root, java_bin, jar_file)

/-- Model of `find_runtime_paths` (launcher.rs lines 209-243). -/
def find_runtime_paths (fs : FsPath → Bool) (roots : List FsPath) :
    Except LauncherError (FsPath × FsPath × FsPath) :=
  find_runtime_paths_loop fs roots none none

/-! ## ProcessSupervisor and bootstrap orchestrator (launcher.rs lines 66-128)

Children are identified by numbers.  The observable process actions taken on
a child are recorded in order, so that "kills and waits before returning"
is statable.  All ambient effects (health probes at the two call sites,
`current_exe`, filesystem existence, spawning, the health wait, the exit
wait) are oracle fields of the environment. -/

/-- A child process handle. -/
abbrev Child : Type := Nat

/-- Observable actions on child processes, in program order. -/
inductive SupAction where
  | spawned (c : Child)
  | sigterm (c : Child)
  | killed (c : Child)
  | waited (c : Child)
deriving DecidableEq, Repr

/-- Rust struct `LauncherConfig` (launcher.rs lines 57-64). -/
structure LauncherConfig where
  runtime_root : FsPath
  java_bin : FsPath
  jar_file : FsPath
  base_url : String
  root_dir : Option String
deriving DecidableEq, Repr

/-- Ambient environment of one `bootstrap` call: configuration sources,
platform, filesystem and process oracles. -/
structure BootEnv where
  cliArg : Option String
  envVar : Option String
  confText : Option String
  macos : Bool
  resource_dir : Option FsPath
  app_dir : Except LauncherError FsPath
  rootDirVar : Option String
  fs : FsPath → Bool
  healthyAtStart : Bool
  healthyAfterDiscover : Bool
  spawnResult : Except String Child
  waitHealthy : Bool

/-- Model of `LauncherConfig::discover` (launcher.rs lines 112-128), with
`current_app_dir`'s outcome supplied by the environment. -/
def LauncherConfig.discover (env : BootEnv) (base_url : String) :
    Except LauncherError LauncherConfig :=
  match env.app_dir with
  | .error e => .error e
  | .ok app_dir =>
    let roots := runtime_roots env.macos env.resource_dir app_dir
    match find_runtime_paths env.fs roots with
    | .error e => .error e
    | .ok (runtime_root, java_bin, jar_file) =>
      .ok { runtime_root := runtime_root, java_bin := java_bin,
            jar_file := jar_file, base_url := base_url,
            root_dir := env.rootDirVar }

/-- Result of one `bootstrap` call: the returned value, the supervised-child
slot afterwards, and the child-process actions taken. -/
structure BootOut where
  result : Except LauncherError String
  slot : Option Child
  actions : List SupAction
deriving DecidableEq, Repr

/-- Model of `bootstrap` (launcher.rs lines 66-96), as a function of the environment
and of the supervised-child slot `CHILD_PROCESS`. -/
def bootstrap (env : BootEnv) (slot0 : Option Child) : BootOut :=
  let base_url := resolve_base_url env.cliArg env.envVar env.confText
  if (parseUrl base_url.data).isNone then
    { result := .error (.InvalidBaseUrl base_url), slot := slot0, actions := [] }
  else if env.healthyAtStart then
    { result := .ok base_url, slot := slot0, actions := [] }
  else
    match LauncherConfig.discover env base_url with
    | .error e => { result := .error e, slot := slot0, actions := [] }
    | .ok config =>
      if !env.healthyAfterDiscover then
        match env.spawnResult with
        | .error msg =>
          { result := .error (.SpawnServer msg), slot := slot0, actions := [] }
        | .ok child =>
          if !env.waitHealthy then
            { result := .error (.StartupTimeout config.base_url 60),
              slot := slot0,
              actions := [.spawned child, .killed child, .waited child] }
          else
            { result := .ok config.base_url, slot := some child,
              actions := [.spawned child] }
      else
        { result := .ok config.base_url, slot := slot0, actions := [] }

/-- Ambient environment of one `shutdown_child_process` call: whether the
child exits within the shutdown deadline after the graceful signal. -/
structure ShutEnv where
  exitsInTime : Bool

/-- Model of `shutdown_child_process` (launcher.rs lines 98-110), as a function of the
environment and the slot; returns the slot afterwards and the actions. -/
def shutdown_child_process (env : ShutEnv) (slot : Option Child) :
    Option Child × List SupAction :=
  match slot with
  | none => (none, [])
  | some child =>
    if env.exitsInTime then (none, [.sigterm child])
    else (none, [.sigterm child, .killed child, .waited child])

/-- Successive values of the supervised-child slot under a sequence of
`shutdown_child_process` calls (the first element is the starting slot). -/
def shutdownStates (envs : List ShutEnv) (slot : Option Child) :
    List (Option Child) :=
  match envs with
  | [] => [slot]
  | e :: rest => slot :: shutdownStates rest (shutdown_child_process e slot).1

/-- Slot values over the program's lifetime as driven by `main.rs`: the slot
starts empty, `bootstrap` runs once during setup, and
`shutdown_child_process` runs on each exit event. -/
def programStates (env : BootEnv) (shutdowns : List ShutEnv) :
    List (Option Child) :=
  none :: shutdownStates shutdowns (bootstrap env none).slot

/-! ## Helper lemmas -/

/-- Whatever `dropTrailingSlashes` returns, its last character is not `'/'`
(or it is empty). -/
theorem dropTrailingSlashes_last (l : List Char) :
    dropTrailingSlashes l = [] ∨ (dropTrailingSlashes l).getLast? ≠ some '/' := by
  have h := List.head?_dropWhile_not (fun c => c = '/') l.reverse
  rcases hd : (l.reverse.dropWhile (fun c => c = '/')).head? with _ | c
  · left
    have hnil : l.reverse.dropWhile (fun c => c = '/') = [] := by
      cases hx : l.reverse.dropWhile (fun c => c = '/') <;> simp_all
    simp [dropTrailingSlashes, hnil]
  · right
    rw [hd] at h
    have hc : c ≠ '/' := by simpa using h
    have : (dropTrailingSlashes l).getLast? = some c := by
      simp [dropTrailingSlashes, List.getLast?_reverse, hd]
    simp [this, hc]

/-- Helper `natDigitsAux` only produces decimal digit characters. -/
theorem natDigitsAux_mem (fuel n : Nat) :
    ∀ c ∈ natDigitsAux fuel n, ∃ d, d < 10 ∧ c = Char.ofNat (48 + d) := by
  induction fuel generalizing n with
  | zero => simp [natDigitsAux]
  | succ fuel ih =>
    intro c hc
    unfold natDigitsAux at hc
    by_cases h : n < 10
    · simp [h] at hc
      exact ⟨n, h, hc⟩
    · simp [h] at hc
      rcases hc with hc | hc
      · exact ih _ c hc
      · exact ⟨n % 10, Nat.mod_lt _ (by norm_num), hc⟩

/-- A decimal digit character is not `'/'`. -/
theorem digitChar_ne_slash (d : Nat) (h : d < 10) : Char.ofNat (48 + d) ≠ '/' := by
  interval_cases d <;> decide

/-- Helper `natDigits` is never empty. -/
theorem natDigits_ne_nil (n : Nat) : natDigits n ≠ [] := by
  unfold natDigits natDigitsAux
  by_cases h : n < 10 <;> simp [h]

/-- The decimal representation of a number never ends with `'/'`. -/
theorem natDigits_getLast_ne_slash (n : Nat) : (natDigits n).getLast? ≠ some '/' := by
  intro hlast
  have hmem : '/' ∈ natDigits n := List.mem_of_mem_getLast? (by rw [hlast]; rfl)
  rcases natDigitsAux_mem (n + 1) n '/' hmem with ⟨d, hd, hc⟩
  exact digitChar_ne_slash d hd hc.symm

/-- When the input is neither `""` nor `"/"`, the normalized subpath starts
with `'/'`. -/
theorem normalize_subpath_head (s : String) (h1 : s ≠ "") (h2 : s ≠ "/") :
    (normalize_subpath s).data.head? = some '/' := by
  have hcond : ¬ (s = "" ∨ s = "/") := by simp [h1, h2]
  unfold normalize_subpath
  rw [if_neg hcond]
  rcases hx : dropTrailingSlashes (trimChars s.data) with _ | ⟨c, cs⟩
  · simp [hx]
  · by_cases hc : c = '/'
    · simp [hx, hc]
    · simp [hx, hc]

/-- When the input is neither `""` nor `"/"`, the normalized subpath either is
exactly `"/"` or does not end with `'/'`. -/
theorem normalize_subpath_last (s : String) (h1 : s ≠ "") (h2 : s ≠ "/") :
    normalize_subpath s = "/" ∨ (normalize_subpath s).data.getLast? ≠ some '/' := by
  have hcond : ¬ (s = "" ∨ s = "/") := by simp [h1, h2]
  unfold normalize_subpath
  rw [if_neg hcond]
  rcases dropTrailingSlashes_last (trimChars s.data) with hnil | hlast
  · left
    simp only [hnil]
    decide
  · rcases hx : dropTrailingSlashes (trimChars s.data) with _ | ⟨c, cs⟩
    · left
      simp only [hx]
      decide
    · rw [hx] at hlast
      by_cases hc : c = '/'
      · right
        simpa [hx, hc] using hlast
      · right
        simpa [hx, hc, List.getLast?_cons_cons] using hlast

/-! ## Claim C8 — `normalize_subpath` -/

/-- Claim C8 counterexample.  The claim says `normalize_subpath` "strips a
trailing slash" and "ensures the result has exactly one leading slash".  On
`"//a"` the code keeps **both** leading slashes (it only prepends a slash when
none is present, it never collapses existing ones), and on `"abc//"` it strips
**both** trailing slashes (`trim_end_matches('/')` removes every trailing
match), producing `"/abc"` rather than the single-strip `"/abc/"`. -/
theorem normalize_subpath_cex :
    normalize_subpath "//a" = "//a" ∧
    (normalize_subpath "//a").data.head? = some '/' ∧
    (normalize_subpath "//a").data.tail.head? = some '/' ∧
    normalize_subpath "abc//" = "/abc" ∧
    normalize_subpath "abc//" ≠ "/abc/" := by decide

/-- Claim C8 (amended).  `normalize_subpath` maps `""` and `"/"` to `""`; every
other input is trimmed of whitespace, stripped of **all** trailing slashes,
and given a leading slash when none is present — so the result always begins
with `'/'` and ends with `'/'` only in the degenerate case where it is exactly
`"/"`.  In particular `"" ↦ ""`, `"/" ↦ ""`, `"abc/" ↦ "/abc"`,
`"noslash" ↦ "/noslash"`. -/
theorem normalize_subpath_spec :
    normalize_subpath "" = "" ∧
    normalize_subpath "/" = "" ∧
    normalize_subpath "abc/" = "/abc" ∧
    normalize_subpath "noslash" = "/noslash" ∧
    ∀ s : String, s ≠ "" → s ≠ "/" →
      (normalize_subpath s).data.head? = some '/' ∧
      (normalize_subpath s = "/" ∨ (normalize_subpath s).data.getLast? ≠ some '/') := by
  refine ⟨by decide, by decide, by decide, by decide, fun s h1 h2 => ?_⟩
  exact ⟨normalize_subpath_head s h1 h2, normalize_subpath_last s h1 h2⟩

/-- Witness for C8: the general clauses evaluated at `"x//"`. -/
theorem normalize_subpath_spec_witness :
    (normalize_subpath "x//").data.head? = some '/' :=
  (normalize_subpath_spec.2.2.2.2 "x//" (by decide) (by decide)).1

/-! ## Claim C7 — `build_base_url` -/

/-- Claim C7 counterexample.  The claim says the result of `build_base_url`
never ends with a trailing slash, but for `subpath = "//"` the normalized
subpath is `"/"` and the produced URL ends with `'/'`. -/
theorem build_base_url_cex :
    build_base_url "127.0.0.1" 4567 "//" = "http://127.0.0.1:4567/" ∧
    (build_base_url "127.0.0.1" 4567 "//").data.getLast? = some '/' := by decide

/-- Claim C7 (amended).  `build_base_url ip port subpath` is exactly the string
`"http://" ++ normalize_ip ip ++ ":" ++ port ++ normalize_subpath subpath`;
the result ends with a trailing slash only when the normalized subpath is
exactly `"/"` (as happens for `subpath = "//"`); and
`build_base_url "127.0.0.1" 4567 "" = "http://127.0.0.1:4567"`,
`build_base_url "127.0.0.1" 4567 "abc/" = "http://127.0.0.1:4567/abc"`. -/
theorem build_base_url_spec :
    (∀ (ip : String) (port : Nat) (subpath : String),
       build_base_url ip port subpath =
         "http://" ++ normalize_ip ip ++ ":" ++ String.mk (natDigits port)
           ++ normalize_subpath subpath) ∧
    build_base_url "127.0.0.1" 4567 "" = "http://127.0.0.1:4567" ∧
    build_base_url "127.0.0.1" 4567 "abc/" = "http://127.0.0.1:4567/abc" ∧
    (∀ (ip : String) (port : Nat) (subpath : String),
       normalize_subpath subpath ≠ "/" →
       (build_base_url ip port subpath).data.getLast? ≠ some '/') := by
  refine ⟨fun _ _ _ => rfl, by decide, by decide, fun ip port subpath hns => ?_⟩
  have hdata : (build_base_url ip port subpath).data =
      ("http://" ++ normalize_ip ip ++ ":").data
        ++ (natDigits port ++ (normalize_subpath subpath).data) := by
    simp [build_base_url, String.data_append, List.append_assoc]
  rw [hdata]
  by_cases hsub : subpath = "" ∨ subpath = "/"
  · have hempty : normalize_subpath subpath = "" := by
      unfold normalize_subpath
      rw [if_pos hsub]
    rw [hempty]
    rw [List.getLast?_append_of_ne_nil _ (by simp [natDigits_ne_nil port])]
    simpa using natDigits_getLast_ne_slash port
  · push_neg at hsub
    have hhead := normalize_subpath_head subpath hsub.1 hsub.2
    have hne : (normalize_subpath subpath).data ≠ [] := by
      intro h
      rw [h] at hhead
      exact Option.noConfusion hhead
    rw [List.getLast?_append_of_ne_nil _ (by simp [hne])]
    rw [List.getLast?_append_of_ne_nil _ hne]
    rcases normalize_subpath_last subpath hsub.1 hsub.2 with h | h
    · exact absurd h hns
    · exact h

/-- Witness for C7: the no-trailing-slash clause evaluated at a concrete
input. -/
theorem build_base_url_spec_witness :
    (build_base_url "0.0.0.0" 8080 "x/").data.getLast? ≠ some '/' :=
  build_base_url_spec.2.2.2 "0.0.0.0" 8080 "x/" (by decide)

/-! ## Claim C6 — `normalize_base_url` -/

/-- Claim C6 counterexample.  The claim says `normalize_base_url` "strips a
single trailing slash from the result", but the code uses
`trim_end_matches('/')`, which strips **every** trailing slash: on
`"http://example.com/a//"` (which parses, and whose serialization keeps the
empty path segment) the result is `"http://example.com/a"`, not the
single-strip `"http://example.com/a/"`. -/
theorem normalize_base_url_cex :
    normalize_base_url "http://example.com/a//" = some "http://example.com/a" ∧
    normalize_base_url "http://example.com/a//" ≠ some "http://example.com/a/" := by
  decide

/-- Claim C6 (amended).  `normalize_base_url` returns `none` — never an error —
when the input does not parse as a URL; when the parsed host is literally
`0.0.0.0` it rewrites the host to `127.0.0.1` (other hosts are kept); and it
strips **all** trailing slashes from the serialized result, so the returned
string never ends with `'/'`. -/
theorem normalize_base_url_spec :
    (∀ s : String, parseUrl s.data = none → normalize_base_url s = none) ∧
    (∀ (s : String) (u : ModelUrl), parseUrl s.data = some u →
       u.host = "0.0.0.0".data →
       normalize_base_url s =
         some (String.mk (dropTrailingSlashes (set_host u "127.0.0.1".data).toChars))) ∧
    (∀ (s : String) (u : ModelUrl), parseUrl s.data = some u →
       u.host ≠ "0.0.0.0".data →
       normalize_base_url s = some (String.mk (dropTrailingSlashes u.toChars))) ∧
    (∀ (s r : String), normalize_base_url s = some r →
       r.data.getLast? ≠ some '/') := by
  refine ⟨?_, ?_, ?_, ?_⟩
  · intro s h
    simp [normalize_base_url, h]
  · intro s u hp hh
    simp [normalize_base_url, hp, hh]
  · intro s u hp hh
    simp [normalize_base_url, hp, hh]
  · intro s r h
    unfold normalize_base_url at h
    rcases hp : parseUrl s.data with _ | u
    · rw [hp] at h
      exact Option.noConfusion h
    · rw [hp] at h
      simp only [Option.some.injEq] at h
      by_cases hh : u.host = "0.0.0.0".data
      · rw [if_pos hh] at h
        rcases dropTrailingSlashes_last (set_host u "127.0.0.1".data).toChars with hnil | hl
        · rw [← h]
          simp [hnil]
        · rw [← h]
          exact hl
      · rw [if_neg hh] at h
        rcases dropTrailingSlashes_last u.toChars with hnil | hl
        · rw [← h]
          simp [hnil]
        · rw [← h]
          exact hl

/-- Witness for C6: the three clauses at concrete inputs — an unparseable
string, a `0.0.0.0` host, and an ordinary host. -/
theorem normalize_base_url_spec_witness :
    normalize_base_url "notaurl" = none ∧
    normalize_base_url "http://0.0.0.0:4567/" =
      some (String.mk (dropTrailingSlashes
        (set_host { scheme := "http".data, host := "0.0.0.0".data,
                    port := some 4567, path := ['/'] } "127.0.0.1".data).toChars)) ∧
    ("http://127.0.0.1:4567" : String).data.getLast? ≠ some '/' :=
  ⟨normalize_base_url_spec.1 "notaurl" (by decide),
   normalize_base_url_spec.2.1 "http://0.0.0.0:4567/"
     { scheme := "http".data, host := "0.0.0.0".data,
       port := some 4567, path := ['/'] } (by decide) (by decide),
   by
     have h := normalize_base_url_spec.2.2.2 "http://0.0.0.0:4567/"
       "http://127.0.0.1:4567" (by decide)
     exact h⟩

/-! ## Claim C3 — `resolve_base_url` precedence -/

/-- Claim C3.  `resolve_base_url` tries the command-line argument, then the
environment variable, then the configuration file / defaults, in that order:
a command-line argument that normalizes successfully is returned no matter
what the environment variable and configuration file contain; a present
source that fails normalization falls through to the next source instead of
erroring; and `fallback_base_url` is the same total function, so both always
return a string. -/
theorem resolve_base_url_precedence :
    (∀ (c : String) (e f : Option String) (b : String),
       normalize_base_url c = some b →
       resolve_base_url (some c) e f = b) ∧
    (∀ (c : String) (e f : Option String),
       normalize_base_url c = none →
       resolve_base_url (some c) e f = resolve_base_url none e f) ∧
    (∀ (r : String) (f : Option String),
       normalize_base_url r = none →
       resolve_base_url none (some r) f = resolve_base_url none none f) ∧
    (∀ (c e f : Option String),
       fallback_base_url c e f = resolve_base_url c e f) := by
  refine ⟨?_, ?_, ?_, fun _ _ _ => rfl⟩
  · intro c e f b h
    simp [resolve_base_url, Option.bind, h]
  · intro c e f h
    simp [resolve_base_url, Option.bind, h]
  · intro r f h
    simp [resolve_base_url, Option.bind, h]

/-- Witness for C3: a command-line URL beats a conflicting environment
variable and configuration file, and an unparseable command-line value falls
through to the environment variable. -/
theorem resolve_base_url_precedence_witness :
    resolve_base_url (some "http://0.0.0.0:123/x/") (some "http://9.9.9.9")
        (some "server.port = 1") = "http://127.0.0.1:123/x" ∧
    resolve_base_url (some "not a url") (some "http://8.8.8.8")
        (some "server.port = 1") =
      resolve_base_url none (some "http://8.8.8.8") (some "server.port = 1") :=
  ⟨resolve_base_url_precedence.1 "http://0.0.0.0:123/x/" (some "http://9.9.9.9")
      (some "server.port = 1") "http://127.0.0.1:123/x" (by decide),
   resolve_base_url_precedence.2.1 "not a url" (some "http://8.8.8.8")
      (some "server.port = 1") (by decide)⟩

/-! ## Claims C5 and C10 — `parse_server_conf` -/

/-- Value of the `port` field as a function of the port regex's first
capture. -/
def portResult : Option (List Char) → Nat
  | none => DEFAULT_PORT
  | some ds =>
    match parseU16 ds with
    | some p => p
    | none => DEFAULT_PORT

/-- Value of the `ip` field as a function of the ip regex's first capture. -/
def ipResult : Option (List Char) → String
  | none => DEFAULT_IP
  | some v => normalize_ip (String.mk (trimChars v))

/-- Value of the `subpath` field as a function of the subpath regex's first
capture. -/
def subpathResult : Option (List Char) → String
  | none => ""
  | some v => normalize_subpath (String.mk (trimChars v))

theorem firstMatch_eq_none (f : List Char → Option (List Char))
    (lines : List (List Char)) (h : ∀ l ∈ lines, f l = none) :
    firstMatch f lines = none := by
  induction lines with
  | nil => rfl
  | cons l ls ih =>
    have h0 := h l (by simp)
    simp only [firstMatch, h0]
    exact ih (fun x hx => h x (by simp [hx]))

theorem firstMatch_append_none (f : List Char → Option (List Char))
    (pre rest : List (List Char)) (hpre : ∀ p ∈ pre, f p = none) :
    firstMatch f (pre ++ rest) = firstMatch f rest := by
  induction pre with
  | nil => rfl
  | cons p ps ih =>
    have h0 := hpre p (by simp)
    simp only [List.cons_append, firstMatch, h0]
    exact ih (fun x hx => hpre x (by simp [hx]))

theorem firstMatch_cons_some (f : List Char → Option (List Char))
    (l : List Char) (rest : List (List Char)) (v : List Char)
    (h : f l = some v) : firstMatch f (l :: rest) = some v := by
  simp [firstMatch, h]

theorem parseLines_port (lines : List (List Char)) :
    (parseLines lines).port = portResult (firstMatch matchPortLine lines) := by
  unfold parseLines
  rcases firstMatch matchIpLine lines with _ | v <;>
    rcases firstMatch matchPortLine lines with _ | ds <;>
      rcases firstMatch matchSubpathLine lines with _ | w <;>
        simp only [portResult] <;>
          first
            | rfl
            | (rcases parseU16 ds with _ | p <;> rfl)

theorem parseLines_ip (lines : List (List Char)) :
    (parseLines lines).ip = ipResult (firstMatch matchIpLine lines) := by
  unfold parseLines
  rcases firstMatch matchIpLine lines with _ | v <;>
    rcases firstMatch matchPortLine lines with _ | ds <;>
      rcases firstMatch matchSubpathLine lines with _ | w <;>
        simp only [ipResult] <;>
          first
            | rfl
            | (rcases parseU16 ds with _ | p <;> rfl)

theorem parseLines_subpath (lines : List (List Char)) :
    (parseLines lines).subpath = subpathResult (firstMatch matchSubpathLine lines) := by
  unfold parseLines
  rcases firstMatch matchIpLine lines with _ | v <;>
    rcases firstMatch matchPortLine lines with _ | ds <;>
      rcases firstMatch matchSubpathLine lines with _ | w <;>
        simp only [subpathResult] <;>
          first
            | rfl
            | (rcases parseU16 ds with _ | p <;> rfl)

/-- Claim C5.  `parse_server_conf` extracts `server.ip`, `server.port` and
`server.webUISubpath` with independent per-line patterns: a text none of
whose lines matches any of the three patterns yields exactly the default
configuration; the sample text with the three keys yields
`{ip := "127.0.0.1", port := 8080, subpath := "/suwayomi"}` (the `0.0.0.0`
ip is normalized to loopback at parse time); and a first-captured port whose
digits do not parse as a `u16` leaves the default port untouched. -/
theorem parse_server_conf_spec :
    (∀ content : String,
       (∀ l ∈ splitLines content.data,
          matchIpLine l = none ∧ matchPortLine l = none ∧ matchSubpathLine l = none) →
       parse_server_conf content = ParsedConfig.default) ∧
    parse_server_conf
        "server.ip = \"0.0.0.0\"\nserver.port = 8080\nserver.webUISubpath = \"suwayomi\"" =
      { ip := "127.0.0.1", port := 8080, subpath := "/suwayomi" } ∧
    (∀ (content : String) (ds : List Char),
       firstMatch matchPortLine (splitLines content.data) = some ds →
       parseU16 ds = none →
       (parse_server_conf content).port = DEFAULT_PORT) := by
  refine ⟨?_, by decide, ?_⟩
  · intro content h
    have hip : firstMatch matchIpLine (splitLines content.data) = none :=
      firstMatch_eq_none _ _ (fun l hl => (h l hl).1)
    have hpt : firstMatch matchPortLine (splitLines content.data) = none :=
      firstMatch_eq_none _ _ (fun l hl => (h l hl).2.1)
    have hsp : firstMatch matchSubpathLine (splitLines content.data) = none :=
      firstMatch_eq_none _ _ (fun l hl => (h l hl).2.2)
    unfold parse_server_conf parseLines
    rw [hip, hpt, hsp]
  · intro content ds hds hu
    unfold parse_server_conf
    rw [parseLines_port, hds]
    simp [portResult, hu]

/-- Witness for C5: a key-free text yields the defaults, and an
out-of-range port (`99999`) is ignored. -/
theorem parse_server_conf_spec_witness :
    parse_server_conf "server.webUIEnabled = true" = ParsedConfig.default ∧
    (parse_server_conf "server.port = 99999").port = DEFAULT_PORT :=
  ⟨parse_server_conf_spec.1 "server.webUIEnabled = true" (by decide),
   parse_server_conf_spec.2.2 "server.port = 99999" "99999".data
     (by decide) (by decide)⟩

/-- Claim C10.  For each of the three configuration keys, the field set by
`parse_server_conf` is determined by the first line matching that key's
pattern: whatever follows that line (`post`, which may contain further
occurrences of the same key) is ignored. -/
theorem parse_server_conf_first_occurrence :
    ∀ (content : String) (pre post : List (List Char)) (l : List Char),
      splitLines content.data = pre ++ l :: post →
      ((∀ p ∈ pre, matchPortLine p = none) → matchPortLine l ≠ none →
         (parse_server_conf content).port = portResult (matchPortLine l)) ∧
      ((∀ p ∈ pre, matchIpLine p = none) → matchIpLine l ≠ none →
         (parse_server_conf content).ip = ipResult (matchIpLine l)) ∧
      ((∀ p ∈ pre, matchSubpathLine p = none) → matchSubpathLine l ≠ none →
         (parse_server_conf content).subpath = subpathResult (matchSubpathLine l)) := by
  intro content pre post l hsplit
  refine ⟨?_, ?_, ?_⟩ <;> intro hpre hl
  · rcases h : matchPortLine l with _ | v
    · exact absurd h hl
    · unfold parse_server_conf
      rw [parseLines_port, hsplit, firstMatch_append_none _ _ _ hpre,
        firstMatch_cons_some _ _ _ _ h]
  · rcases h : matchIpLine l with _ | v
    · exact absurd h hl
    · unfold parse_server_conf
      rw [parseLines_ip, hsplit, firstMatch_append_none _ _ _ hpre,
        firstMatch_cons_some _ _ _ _ h]
  · rcases h : matchSubpathLine l with _ | v
    · exact absurd h hl
    · unfold parse_server_conf
      rw [parseLines_subpath, hsplit, firstMatch_append_none _ _ _ hpre,
        firstMatch_cons_some _ _ _ _ h]

/-- Witness for C10: with two `server.port` lines, the first (1111) wins and
the later one (2222) is ignored. -/
theorem parse_server_conf_first_occurrence_witness :
    (parse_server_conf "server.port = 1111\nserver.port = 2222").port = 1111 := by
  have h := (parse_server_conf_first_occurrence
      "server.port = 1111\nserver.port = 2222"
      [] ["server.port = 2222".data] "server.port = 1111".data (by decide)).1
      (by simp) (by decide)
  rw [h]
  decide

/-! ## Claim C4 — `find_runtime_paths` -/

/-- A root that contains both the interpreter and the payload. -/
def hasBoth (fs : FsPath → Bool) (root : FsPath) : Bool :=
  fs (java_binary_path root) && fs (jar_file_path root)

/-- Once the first-missing-interpreter accumulator is set and no later root
has both files, the loop reports that interpreter path. -/
theorem find_loop_missing_java (fs : FsPath → Bool) :
    ∀ (roots : List FsPath) (j : FsPath) (fmr : Option FsPath),
      (∀ r ∈ roots, hasBoth fs r = false) →
      find_runtime_paths_loop fs roots (some j) fmr = .error (.MissingFile j) := by
  intro roots
  induction roots with
  | nil => intro j fmr _; rfl
  | cons root rest ih =>
    intro j fmr h
    have hroot : hasBoth fs root = false := h root (by simp)
    unfold find_runtime_paths_loop
    by_cases hj : fs (java_binary_path root) = true
    · have hjar : fs (jar_file_path root) = false := by
        simpa [hasBoth, hj] using hroot
      simp only [hj, hjar]
      simp only [Bool.not_true, Bool.false_eq_true, if_false, Bool.not_false, if_true]
      exact ih j _ (fun r hr => h r (by simp [hr]))
    · have hj' : fs (java_binary_path root) = false := by
        simpa using hj
      simp only [hj']
      simp only [Bool.not_false, if_true]
      exact ih j fmr (fun r hr => h r (by simp [hr]))

/-- When every root has the interpreter but lacks the payload, and the
first-missing-payload accumulator is set, the loop reports that payload
path. -/
theorem find_loop_missing_jar (fs : FsPath → Bool) :
    ∀ (roots : List FsPath) (j : FsPath),
      (∀ r ∈ roots, fs (java_binary_path r) = true ∧ fs (jar_file_path r) = false) →
      find_runtime_paths_loop fs roots none (some j) = .error (.MissingFile j) := by
  intro roots
  induction roots with
  | nil => intro j _; rfl
  | cons root rest ih =>
    intro j h
    have hroot := h root (by simp)
    unfold find_runtime_paths_loop
    simp only [hroot.1, hroot.2]
    simp only [Bool.not_true, Bool.false_eq_true, if_false, Bool.not_false, if_true]
    exact ih j (fun r hr => h r (by simp [hr]))

/-- Claim C4.  `find_runtime_paths` returns the first root (in list order)
containing both `jre/bin/java` and `bin/Suwayomi-Server.jar`, paired with
those two paths.  When no root has both: if some root was missing its
interpreter, the error is `MissingFile` with the first such interpreter path;
otherwise (every root has the interpreter, so every root is missing its
payload) the error is `MissingFile` with the first missing payload path.  An
empty root list yields `MissingExecutable`. -/
theorem find_runtime_paths_spec (fs : FsPath → Bool) :
    (∀ (pre : List FsPath) (root : FsPath) (rest : List FsPath),
       (∀ r ∈ pre, hasBoth fs r = false) → hasBoth fs root = true →
       find_runtime_paths fs (pre ++ root :: rest) =
         .ok (root, java_binary_path root, jar_file_path root)) ∧
    (∀ (pre : List FsPath) (root : FsPath) (rest : List FsPath),
       (∀ r ∈ pre ++ root :: rest, hasBoth fs r = false) →
       (∀ r ∈ pre, fs (java_binary_path r) = true) →
       fs (java_binary_path root) = false →
       find_runtime_paths fs (pre ++ root :: rest) =
         .error (.MissingFile (java_binary_path root))) ∧
    (∀ (root : FsPath) (rest : List FsPath),
       (∀ r ∈ root :: rest,
          fs (java_binary_path r) = true ∧ fs (jar_file_path r) = false) →
       find_runtime_paths fs (root :: rest) =
         .error (.MissingFile (jar_file_path root))) ∧
    find_runtime_paths fs [] = .error .MissingExecutable := by
  have stepJava :
      ∀ (pre : List FsPath) (root : FsPath) (rest : List FsPath) (fmr : Option FsPath),
        (∀ r ∈ pre ++ root :: rest, hasBoth fs r = false) →
        (∀ r ∈ pre, fs (java_binary_path r) = true) →
        fs (java_binary_path root) = false →
        find_runtime_paths_loop fs (pre ++ root :: rest) none fmr =
          .error (.MissingFile (java_binary_path root)) := by
    intro pre
    induction pre with
    | nil =>
      intro root rest fmr hboth _ hjava
      unfold find_runtime_paths_loop
      simp only [List.nil_append] at hboth ⊢
      simp only [hjava, Bool.not_false, if_true, Option.isNone_none]
      exact find_loop_missing_java fs rest _ fmr
        (fun r hr => hboth r (by simp [hr]))
    | cons p ps ih =>
      intro root rest fmr hboth hpre hjava
      have hpj : fs (java_binary_path p) = true := hpre p (by simp)
      have hpb : hasBoth fs p = false := hboth p (by simp)
      have hpjar : fs (jar_file_path p) = false := by
        simpa [hasBoth, hpj] using hpb
      simp only [List.cons_append]
      unfold find_runtime_paths_loop
      simp only [hpj, hpjar]
      simp only [Bool.not_true, Bool.false_eq_true, if_false, Bool.not_false, if_true]
      exact ih root rest _ (fun r hr => hboth r (by simp [hr]))
        (fun r hr => hpre r (by simp [hr])) hjava
  have stepFound :
      ∀ (pre : List FsPath) (root : FsPath) (rest : List FsPath)
        (fmj fmr : Option FsPath),
        (∀ r ∈ pre, hasBoth fs r = false) → hasBoth fs root = true →
        find_runtime_paths_loop fs (pre ++ root :: rest) fmj fmr =
          .ok (root, java_binary_path root, jar_file_path root) := by
    intro pre
    induction pre with
    | nil =>
      intro root rest fmj fmr _ hroot
      have hj : fs (java_binary_path root) = true := by
        have := hroot
        simp [hasBoth] at this
        exact this.1
      have hr : fs (jar_file_path root) = true := by
        have := hroot
        simp [hasBoth] at this
        exact this.2
      unfold find_runtime_paths_loop
      simp only [List.nil_append]
      simp [hj, hr]
    | cons p ps ih =>
      intro root rest fmj fmr hpre hroot
      have hpb : hasBoth fs p = false := hpre p (by simp)
      simp only [List.cons_append]
      unfold find_runtime_paths_loop
      by_cases hpj : fs (java_binary_path p) = true
      · have hpjar : fs (jar_file_path p) = false := by
          simpa [hasBoth, hpj] using hpb
        simp only [hpj, hpjar]
        simp only [Bool.not_true, Bool.false_eq_true, if_false, Bool.not_false, if_true]
        exact ih root rest _ _ (fun r hr => hpre r (by simp [hr])) hroot
      · have hpj' : fs (java_binary_path p) = false := by simpa using hpj
        simp only [hpj', Bool.not_false, if_true]
        exact ih root rest _ _ (fun r hr => hpre r (by simp [hr])) hroot
  refine ⟨?_, ?_, ?_, rfl⟩
  · intro pre root rest hpre hroot
    exact stepFound pre root rest none none hpre hroot
  · intro pre root rest hboth hpre hjava
    exact stepJava pre root rest none hboth hpre hjava
  · intro root rest h
    have hroot := h root (by simp)
    unfold find_runtime_paths find_runtime_paths_loop
    simp only [hroot.1, hroot.2]
    simp only [Bool.not_true, Bool.false_eq_true, if_false, Bool.not_false, if_true,
      Option.isNone_none]
    exact find_loop_missing_jar fs rest _ (fun r hr => h r (by simp [hr]))

/-- Witness for C4: over roots `[bad, good]` where `bad` has neither file and
`good` has both, the `good` root is returned with its two paths; over roots
where nothing exists, the first missing interpreter path is reported. -/
theorem find_runtime_paths_spec_witness :
    find_runtime_paths
        (fun p => p = ["good", "jre", "bin", "java"]
          ∨ p = ["good", "bin", "Suwayomi-Server.jar"])
        [["bad"], ["good"]] =
      .ok (["good"], ["good", "jre", "bin", "java"],
        ["good", "bin", "Suwayomi-Server.jar"]) ∧
    find_runtime_paths (fun _ => false) [["a"], ["b"]] =
      .error (.MissingFile ["a", "jre", "bin", "java"]) :=
  ⟨(find_runtime_paths_spec _).1 [["bad"]] ["good"] [] (by decide) (by decide),
   (find_runtime_paths_spec _).2.1 [] ["a"] [["b"]] (by decide) (by simp)
     (by decide)⟩

/-! ## Claim C9 — `runtime_roots` -/

/-- Pushing a list of candidates through `push_unique_path` in order. -/
def pushAll (acc : List FsPath) (cands : List FsPath) : List FsPath :=
  cands.foldl push_unique_path acc

/-- The candidate sequence fed to `push_unique_path` when a resource
directory is supplied. -/
def rootCandidates (macos : Bool) (rd ad : FsPath) : List FsPath :=
  [rd, pjoin rd "resources", ad, pjoin ad "resources"]
    ++ (if macos then
          [pjoin ad "Resources", pjoin (pjoin ad "Resources") "resources"]
        else [])

theorem runtime_roots_eq_pushAll (macos : Bool) (rd ad : FsPath) :
    runtime_roots macos (some rd) ad = pushAll [] (rootCandidates macos rd ad) := by
  cases macos <;> rfl

theorem pushAll_nodup :
    ∀ (cands : List FsPath) (acc : List FsPath),
      acc.Nodup → (pushAll acc cands).Nodup := by
  intro cands
  induction cands with
  | nil => intro acc h; exact h
  | cons c cs ih =>
    intro acc h
    refine ih _ ?_
    unfold push_unique_path
    by_cases hc : c ∈ acc
    · simpa [hc] using h
    · rw [if_neg hc]
      refine List.Nodup.append h (by simp) ?_
      intro x hx hx'
      simp at hx'
      exact hc (hx' ▸ hx)

theorem pushAll_mem :
    ∀ (cands : List FsPath) (acc : List FsPath) (p : FsPath),
      p ∈ pushAll acc cands ↔ p ∈ acc ∨ p ∈ cands := by
  intro cands
  induction cands with
  | nil => intro acc p; simp [pushAll]
  | cons c cs ih =>
    intro acc p
    have step : p ∈ push_unique_path acc c ↔ p ∈ acc ∨ p = c := by
      unfold push_unique_path
      by_cases hc : c ∈ acc
      · simp only [if_pos hc]
        constructor
        · exact fun h => Or.inl h
        · rintro (h | rfl)
          · exact h
          · exact hc
      · simp [if_neg hc]
    calc p ∈ pushAll acc (c :: cs)
        ↔ p ∈ push_unique_path acc c ∨ p ∈ cs := ih (push_unique_path acc c) p
      _ ↔ (p ∈ acc ∨ p = c) ∨ p ∈ cs := by rw [step]
      _ ↔ p ∈ acc ∨ p ∈ c :: cs := by simp [or_assoc]

theorem pushAll_sublist :
    ∀ (cands : List FsPath) (acc : List FsPath),
      List.Sublist (pushAll acc cands) (acc ++ cands) := by
  intro cands
  induction cands with
  | nil => intro acc; simp [pushAll]
  | cons c cs ih =>
    intro acc
    have h1 : List.Sublist (pushAll (push_unique_path acc c) cs)
        (push_unique_path acc c ++ cs) := ih _
    have h2 : List.Sublist (push_unique_path acc c ++ cs) (acc ++ c :: cs) := by
      unfold push_unique_path
      by_cases hc : c ∈ acc
      · rw [if_pos hc]
        exact (List.sublist_cons_self c cs).append_left acc
      · rw [if_neg hc]
        simp
    exact h1.trans h2

/-- Keep-first deduplication, stated from the spec's words ("duplicates by
exact path equality are dropped keeping the first occurrence, so earlier
entries win"): walk the candidates in order and keep each path the first time
it appears, dropping every later duplicate (`seen` holds the paths already
kept). -/
def dedupFirstAux (seen : List FsPath) : List FsPath → List FsPath
  | [] => []
  | p :: ps =>
    if p ∈ seen then dedupFirstAux seen ps
    else p :: dedupFirstAux (p :: seen) ps

/-- Keep-first deduplication of a candidate list (earlier entries win). -/
def dedupFirst (cands : List FsPath) : List FsPath :=
  dedupFirstAux [] cands

/-- The `seen` accumulator of `dedupFirstAux` only matters as a set. -/
theorem dedupFirstAux_congr :
    ∀ (cands s1 s2 : List FsPath), (∀ x, x ∈ s1 ↔ x ∈ s2) →
      dedupFirstAux s1 cands = dedupFirstAux s2 cands := by
  intro cands
  induction cands with
  | nil => intro s1 s2 _; rfl
  | cons c cs ih =>
    intro s1 s2 h
    unfold dedupFirstAux
    by_cases hc : c ∈ s1
    · rw [if_pos hc, if_pos ((h c).mp hc)]
      exact ih s1 s2 h
    · rw [if_neg hc, if_neg (fun hx => hc ((h c).mpr hx)),
        ih (c :: s1) (c :: s2) (fun x => by simp [h x])]

/-- Folding `push_unique_path` over the candidates appends exactly their
keep-first deduplication (relative to what the accumulator already holds). -/
theorem pushAll_eq_append_dedupFirstAux :
    ∀ (cands acc : List FsPath),
      pushAll acc cands = acc ++ dedupFirstAux acc cands := by
  intro cands
  induction cands with
  | nil => intro acc; simp [pushAll, dedupFirstAux]
  | cons c cs ih =>
    intro acc
    have hstep : pushAll acc (c :: cs) = pushAll (push_unique_path acc c) cs := rfl
    rw [hstep]
    unfold dedupFirstAux
    by_cases hc : c ∈ acc
    · have hpush : push_unique_path acc c = acc := by
        unfold push_unique_path
        rw [if_pos hc]
      rw [if_pos hc, hpush, ih acc]
    · have hpush : push_unique_path acc c = acc ++ [c] := by
        unfold push_unique_path
        rw [if_neg hc]
      rw [if_neg hc, hpush, ih (acc ++ [c]),
        dedupFirstAux_congr cs (acc ++ [c]) (c :: acc) (fun x => by simp [or_comm]),
        List.append_assoc]
      rfl

/-- Claim C9.  With a resource directory supplied, `runtime_roots` is exactly
the keep-first deduplication of the ordered candidate sequence
`[resource_dir, resource_dir/resources, app_dir, app_dir/resources]` (plus,
on macOS, the two `Resources` bundle directories): each candidate's first
occurrence is kept in candidate order and every later duplicate (by exact
path equality) is dropped, so earlier entries win.  Consequently the result
is duplicate-free, a subsequence of the candidate sequence, and contains
exactly the candidates. -/
theorem runtime_roots_spec (macos : Bool) (rd ad : FsPath) :
    runtime_roots macos (some rd) ad = dedupFirst (rootCandidates macos rd ad) ∧
    (runtime_roots macos (some rd) ad).Nodup ∧
    List.Sublist (runtime_roots macos (some rd) ad) (rootCandidates macos rd ad) ∧
    ∀ p : FsPath,
      p ∈ runtime_roots macos (some rd) ad ↔ p ∈ rootCandidates macos rd ad := by
  refine ⟨?_, ?_, ?_, ?_⟩
  · rw [runtime_roots_eq_pushAll, pushAll_eq_append_dedupFirstAux]
    rfl
  · rw [runtime_roots_eq_pushAll]
    exact pushAll_nodup _ [] (by simp)
  · rw [runtime_roots_eq_pushAll]
    simpa using pushAll_sublist (rootCandidates macos rd ad) []
  · intro p
    rw [runtime_roots_eq_pushAll, pushAll_mem]
    simp

/-- Witness for C9: with colliding candidates (`rd = ad = ["r"]`, so the
candidate sequence is `[r, r/resources, r, r/resources]`), the first
occurrences win and the result is `[r, r/resources]`. -/
theorem runtime_roots_spec_witness :
    runtime_roots false (some ["r"]) ["r"] = [["r"], ["r", "resources"]] := by
  rw [(runtime_roots_spec false ["r"] ["r"]).1]
  decide

/-! ## Claims C1 and C2 — supervised-child slot and startup timeout -/

/-- Lemma: `LauncherConfig::discover` passes the base URL through unchanged. -/
theorem discover_base_url (env : BootEnv) (b : String) (cfg : LauncherConfig)
    (h : LauncherConfig.discover env b = .ok cfg) : cfg.base_url = b := by
  unfold LauncherConfig.discover at h
  rcases had : env.app_dir with e | ad
  · rw [had] at h
    exact Except.noConfusion h
  · rw [had] at h
    simp only at h
    rcases hfind : find_runtime_paths env.fs (runtime_roots env.macos env.resource_dir ad)
        with e | ⟨rr, jb, jf⟩
    · rw [hfind] at h
      exact Except.noConfusion h
    · rw [hfind] at h
      injection h with h
      rw [← h]

/-- Lemma: `bootstrap` writes the slot only on the branch where the freshly spawned
child passed the startup health wait. -/
theorem bootstrap_slot_some (env : BootEnv) (slot0 : Option Child) (c : Child)
    (h : (bootstrap env slot0).slot = some c) :
    slot0 = some c ∨ (env.waitHealthy = true ∧ env.spawnResult = .ok c) := by
  unfold bootstrap at h
  by_cases h1 : (parseUrl (resolve_base_url env.cliArg env.envVar env.confText).data).isNone
  · rw [if_pos h1] at h
    exact Or.inl h
  · rw [if_neg h1] at h
    by_cases h2 : env.healthyAtStart
    · rw [if_pos h2] at h
      exact Or.inl h
    · rw [if_neg h2] at h
      rcases hd : LauncherConfig.discover env
          (resolve_base_url env.cliArg env.envVar env.confText) with e | cfg
      · rw [hd] at h
        exact Or.inl h
      · rw [hd] at h
        simp only at h
        by_cases h3 : env.healthyAfterDiscover
        · simp only [h3, Bool.not_true, Bool.false_eq_true, if_false] at h
          exact Or.inl h
        · have h3' : env.healthyAfterDiscover = false := by
            simpa using h3
          simp only [h3', Bool.not_false, if_true] at h
          rcases hs : env.spawnResult with msg | child
          · rw [hs] at h
            exact Or.inl h
          · rw [hs] at h
            by_cases h4 : env.waitHealthy
            · simp only [h4, Bool.not_true, Bool.false_eq_true, if_false] at h
              injection h with h
              exact Or.inr ⟨h4, congrArg Except.ok h⟩
            · have h4' : env.waitHealthy = false := by simpa using h4
              simp only [h4', Bool.not_false, if_true] at h
              exact Or.inl h

/-- Lemma: `shutdown_child_process` always leaves the slot empty. -/
theorem shutdown_slot_none (env : ShutEnv) (s : Option Child) :
    (shutdown_child_process env s).1 = none := by
  rcases s with _ | c
  · rfl
  · unfold shutdown_child_process
    by_cases h : env.exitsInTime = true <;> simp [h]

/-- Every slot value reached by a run of shutdowns is the initial one or
empty. -/
theorem shutdownStates_mem :
    ∀ (envs : List ShutEnv) (s st : Option Child),
      st ∈ shutdownStates envs s → st = s ∨ st = none := by
  intro envs
  induction envs with
  | nil =>
    intro s st h
    simp [shutdownStates] at h
    exact Or.inl h
  | cons e rest ih =>
    intro s st h
    simp only [shutdownStates, List.mem_cons] at h
    rcases h with h | h
    · exact Or.inl h
    · rw [shutdown_slot_none e s] at h
      rcases ih none st h with h | h
      · exact Or.inr h
      · exact Or.inr h

/-- Claim C1.  The supervised-child slot (`CHILD_PROCESS`) is an `Option`, so it
holds at most one child at all times.  Over the program's lifetime as driven
by `main.rs` — the slot starts empty, `bootstrap` runs once during setup, and
`shutdown_child_process` runs on exit events — every non-empty slot value is
the child spawned by that single bootstrap after it passed the startup health
wait, so the slot is populated only after a health-confirmed spawn and is
never overwritten while non-empty.  `shutdown_child_process` takes (empties)
the slot, and a second call finds nothing tracked, performs no action, and
returns normally (it is total and cannot error). -/
theorem child_slot_invariant
    (env : BootEnv) (shutdowns : List ShutEnv) (e1 e2 : ShutEnv)
    (s : Option Child) :
    (∀ st ∈ programStates env shutdowns, ∀ c : Child,
       st = some c → env.waitHealthy = true ∧ env.spawnResult = .ok c) ∧
    (shutdown_child_process e1 s).1 = none ∧
    shutdown_child_process e2 (shutdown_child_process e1 s).1 = (none, []) := by
  refine ⟨?_, shutdown_slot_none e1 s, ?_⟩
  · intro st hst c hc
    simp only [programStates, List.mem_cons] at hst
    rcases hst with h | h
    · rw [h] at hc
      exact Option.noConfusion hc
    · rcases shutdownStates_mem shutdowns _ st h with h | h
      · rw [h] at hc
        rcases bootstrap_slot_some env none c hc with h' | h'
        · exact Option.noConfusion h'
        · exact h'
      · rw [h] at hc
        exact Option.noConfusion hc
  · rw [shutdown_slot_none e1 s]
    rfl

/-- Witness for C1: the slot invariant applied to a concrete run — double
shutdown starting from a tracked child 5 ends with an empty slot and no
second-round actions. -/
theorem child_slot_invariant_witness :
    shutdown_child_process ⟨true⟩
        (shutdown_child_process ⟨false⟩ (some 5)).1 = (none, []) :=
  (child_slot_invariant
      { cliArg := none, envVar := none, confText := none, macos := false,
        resource_dir := none, app_dir := .error .MissingExecutable,
        rootDirVar := none, fs := fun _ => false, healthyAtStart := false,
        healthyAfterDiscover := false, spawnResult := .error "x",
        waitHealthy := false }
      [] ⟨false⟩ ⟨true⟩ (some 5)).2.2

/-- Claim C2.  When the resolved base URL is valid, the server is not already
healthy, discovery succeeds, the post-discovery health check fails, the spawn
succeeds and the startup health wait times out, `bootstrap` kills the spawned
child and then waits for it (in that order) before returning
`StartupTimeout {base_url, timeout_secs := 60}`, and the supervised-child
slot is left exactly as it was — the spawned child never enters it, so on the
program's path (slot empty at bootstrap) it is still empty. -/
theorem bootstrap_timeout_spec
    (env : BootEnv) (slot0 : Option Child) (cfg : LauncherConfig) (child : Child)
    (hurl : (parseUrl (resolve_base_url env.cliArg env.envVar env.confText).data).isSome = true)
    (hh1 : env.healthyAtStart = false)
    (hdisc : LauncherConfig.discover env
      (resolve_base_url env.cliArg env.envVar env.confText) = .ok cfg)
    (hh2 : env.healthyAfterDiscover = false)
    (hspawn : env.spawnResult = .ok child)
    (hwait : env.waitHealthy = false) :
    bootstrap env slot0 =
      { result := .error (.StartupTimeout
          (resolve_base_url env.cliArg env.envVar env.confText) 60),
        slot := slot0,
        actions := [.spawned child, .killed child, .waited child] } := by
  have hbase : cfg.base_url = resolve_base_url env.cliArg env.envVar env.confText :=
    discover_base_url env _ cfg hdisc
  have hnn : (parseUrl (resolve_base_url env.cliArg env.envVar env.confText).data).isNone = false := by
    rcases hx : parseUrl (resolve_base_url env.cliArg env.envVar env.confText).data with _ | u
    · rw [hx] at hurl
      exact Bool.noConfusion hurl
    · rfl
  unfold bootstrap
  rw [if_neg (by simp [hnn]), if_neg (by simp [hh1]), hdisc]
  simp only [hh2, Bool.not_false, if_true, hspawn, hwait, hbase]

/-- Witness for C2: a concrete environment (valid CLI URL, everything present
on disk, spawn yields child 7, health wait fails) in which `bootstrap`
returns the startup timeout, records kill-then-wait on child 7, and leaves
the slot empty. -/
theorem bootstrap_timeout_spec_witness :
    bootstrap
        { cliArg := some "http://127.0.0.1:4567", envVar := none,
          confText := none, macos := false, resource_dir := none,
          app_dir := .ok ["app"], rootDirVar := none, fs := fun _ => true,
          healthyAtStart := false, healthyAfterDiscover := false,
          spawnResult := .ok 7, waitHealthy := false } none =
      { result := .error (.StartupTimeout "http://127.0.0.1:4567" 60),
        slot := none,
        actions := [.spawned 7, .killed 7, .waited 7] } :=
  bootstrap_timeout_spec
    { cliArg := some "http://127.0.0.1:4567", envVar := none,
      confText := none, macos := false, resource_dir := none,
      app_dir := .ok ["app"], rootDirVar := none, fs := fun _ => true,
      healthyAtStart := false, healthyAfterDiscover := false,
      spawnResult := .ok 7, waitHealthy := false } none
    { runtime_root := ["app"],
      java_bin := ["app", "jre", "bin", "java"],
      jar_file := ["app", "bin", "Suwayomi-Server.jar"],
      base_url := "http://127.0.0.1:4567", root_dir := none }
    7 (by decide) rfl (by decide) rfl rfl rfl

end Launcher
